import Mathlib

/-!
Verification of the KoboldAI core (henk717/KoboldAI) against its
natural-language specification.

The development shallowly embeds:
* `KoboldStoryRegister` from `structures.py`: a Python `OrderedDict`
  subclass, embedded as an insertion-ordered association list of
  `(id, text)` pairs together with the private `next_id` counter;
* the warper pipeline of
  `modeling/inference_models/basic_hf/class.py`
  (`model_backend._apply_warpers` and `KoboldLogitsWarperList.__call__`),
  with Python `assert` failures embedded as `Except.error`;
* the bad-word augmentation and seeding logic of
  `model_backend._raw_generate`;
* `trimincompletesentence` from `utils.py` on lists of characters, with
  Python `str.rfind`'s `-1` sentinel kept as an `Int`.
-/

namespace KoboldAI

/-! ### Chunk register: `KoboldStoryRegister` (`structures.py`) -/

/-- An insertion-ordered mapping, as a Python `OrderedDict` over
`int` keys and `str` values: setting an existing key updates the value in
place (keeping its position), setting a new key appends it last. -/
def odSet (l : List (Int × String)) (k : Int) (v : String) : List (Int × String) :=
  if l.any (fun p => p.1 == k) then
    l.map (fun p => if p.1 == k then (k, v) else p)
  else
    l ++ [(k, v)]

/-- Build an ordered dict from a sequence of pairs, left to right
(`OrderedDict.__init__`). -/
def odOfList (seq : List (Int × String)) : List (Int × String) :=
  seq.foldl (fun acc p => odSet acc p.1 p.2) []

/-- `KoboldStoryRegister`: the ordered `id → text` mapping plus the private
`__next_id` counter. -/
structure KoboldStoryRegister where
  entries : List (Int × String)
  next_id : Int

/-- `KoboldStoryRegister.__init__(sequence)`: builds the underlying ordered
dict from the sequence and sets `__next_id` to the number of pairs in the
(materialized) sequence, `sum(1 for _ in sequence)`. -/
def KoboldStoryRegister.init (seq : List (Int × String)) : KoboldStoryRegister :=
  { entries := odOfList seq, next_id := (seq.length : Int) }

/-- `append(v)`: `self[self.__next_id] = v` then `self.increment_id()`. -/
def KoboldStoryRegister.append (r : KoboldStoryRegister) (v : String) :
    KoboldStoryRegister :=
  { entries := odSet r.entries r.next_id v, next_id := r.next_id + 1 }

/-- `OrderedDict.popitem()` with the default `last=True`: removes and
returns the last-inserted pair, or fails (`KeyError`) on an empty dict. -/
def KoboldStoryRegister.popitem (r : KoboldStoryRegister) :
    Option ((Int × String) × KoboldStoryRegister) :=
  match r.entries.getLast? with
  | none => none
  | some p => some (p, { entries := r.entries.dropLast, next_id := r.next_id })

/-- `pop()`: `return self.popitem()[1]` — the text of the popped pair. -/
def KoboldStoryRegister.pop (r : KoboldStoryRegister) :
    Option (String × KoboldStoryRegister) :=
  r.popitem.map (fun q => (q.1.2, q.2))

/-- `get_first_key`: `-1` when empty, else the first (oldest) key. -/
def KoboldStoryRegister.get_first_key (r : KoboldStoryRegister) : Int :=
  match r.entries.head? with
  | none => -1
  | some p => p.1

/-- `get_last_key()`: `-1` when empty, else the last (newest) key. -/
def KoboldStoryRegister.get_last_key (r : KoboldStoryRegister) : Int :=
  match r.entries.getLast? with
  | none => -1
  | some p => p.1

/-- `increment_id()`: `self.__next_id += 1`. -/
def KoboldStoryRegister.increment_id (r : KoboldStoryRegister) :
    KoboldStoryRegister :=
  { r with next_id := r.next_id + 1 }

/-- `set_next_id(x)`: `self.__next_id = x`. -/
def KoboldStoryRegister.set_next_id (r : KoboldStoryRegister) (x : Int) :
    KoboldStoryRegister :=
  { r with next_id := x }

/-- One operation of the register's append/pop interface. -/
inductive Op where
  | appendOp : String → Op
  | popOp : Op

/-- The observable history of a run: the final register, the ids assigned by
the `append` calls (in order), and the ids removed by the `pop` calls (in
order). -/
structure Trace where
  reg : KoboldStoryRegister
  assigned : List Int
  popped : List Int

/-- Run a sequence of `append`/`pop` calls from a register, collecting the
assigned and popped ids.  A `pop` on an empty register raises in Python and
is recorded as a skip here. -/
def runOps : KoboldStoryRegister → List Op → Trace
  | r, [] => { reg := r, assigned := [], popped := [] }
  | r, Op.appendOp v :: t =>
      let rest := runOps (r.append v) t
      { reg := rest.reg, assigned := r.next_id :: rest.assigned,
        popped := rest.popped }
  | r, Op.popOp :: t =>
      match r.popitem with
      | none => runOps r t
      | some (p, r2) =>
          let rest := runOps r2 t
          { reg := rest.reg, assigned := rest.assigned,
            popped := p.1 :: rest.popped }

/-- The number of `append` operations in a list of operations. -/
def appendCount : List Op → Nat
  | [] => 0
  | Op.appendOp _ :: t => appendCount t + 1
  | Op.popOp :: t => appendCount t

/-- Example register used by concrete witnesses: a fresh empty register. -/
def exReg : KoboldStoryRegister := KoboldStoryRegister.init []

/-- Example operation sequence: append, pop, append. -/
def exOps : List Op := [Op.appendOp "a", Op.popOp, Op.appendOp "b"]

/-! ### Warper pipeline (`modeling/inference_models/basic_hf/class.py`) -/

/-- Modelled from the spec: the `Warper` class of `modeling/warpers.py` is
not among the sources under verification (only its caller
`model_backend._apply_warpers` is).  Per the spec, a warper is a named,
statically identified transformation carrying an enabled predicate
`value_is_valid()` derived from its own configuration and a transformation
function over a score tensor, where the repetition-penalty warper
additionally receives the token-id history.  Score tensors are abstracted
as lists of integers (shape = length); a transformation may in principle
produce a null tensor, embedded as `none`, which the calling pipeline
asserts against. -/
structure Warper where
  name : String
  value_is_valid : Bool
  isRepetitionPenalty : Bool
  torch : List Int → Option (List Int)
  torchWithIds : List Int → List Int → Option (List Int)

/-- `model_backend._apply_warpers(scores, input_ids)`: for each sampler id
in `sampler_order`, resolve the warper (`Warper.from_id`), skip it when
`value_is_valid()` is false, otherwise apply it — passing `input_ids` only
to the repetition-penalty warper — and assert that the resulting scores
are not `None`, blaming the warper by name.  The Python `assert` failure
is embedded as `Except.error` with the assertion message. -/
def applyWarpers (fromId : Nat → Warper) : List Nat → List Int → List Int →
    Except String (List Int)
  | [], scores, _ => Except.ok scores
  | sid :: rest, scores, input_ids =>
      let warper := fromId sid
      if warper.value_is_valid = false then
        applyWarpers fromId rest scores input_ids
      else
        match (if warper.isRepetitionPenalty then
            warper.torchWithIds scores input_ids
          else
            warper.torch scores) with
        | none => Except.error ("Scores are None; warper " ++ warper.name
            ++ " is to blame")
        | some s2 => applyWarpers fromId rest s2 input_ids

/-- One externally registered post-processor from `self.logits_processors`,
as called in `KoboldLogitsWarperList.__call__`: it receives the scores and
the input ids and may in principle return `None`. -/
structure LogitsProcessor where
  name : String
  process : List Int → List Int → Option (List Int)

/-- The post-processor stage of `KoboldLogitsWarperList.__call__`: each
processor is applied in registration order and its result asserted
non-`None`, blaming the processor by name. -/
def applyProcessors : List LogitsProcessor → List Int → List Int →
    Except String (List Int)
  | [], _, scores => Except.ok scores
  | p :: rest, input_ids, scores =>
      match p.process scores input_ids with
      | none => Except.error ("Scores are None; processor " ++ p.name
          ++ " is to blame")
      | some s2 => applyProcessors rest input_ids s2

/-- `KoboldLogitsWarperList.__call__(input_ids, scores)`: Kobold sampling
(`_apply_warpers`) followed by the registered logits processors. -/
def koboldLogitsWarperList (fromId : Nat → Warper)
    (processors : List LogitsProcessor) (sampler_order : List Nat)
    (input_ids scores : List Int) : Except String (List Int) :=
  match applyWarpers fromId sampler_order scores input_ids with
  | Except.error e => Except.error e
  | Except.ok s1 => applyProcessors processors input_ids s1

/-! ### Bad-word augmentation and seeding (`model_backend._raw_generate`) -/

/-- `additional_bad_words_ids = [self.tokenizer.encode("\n")] if
single_line else []`. -/
def additionalBadWordsIds (newlineTokenIds : List Int) (single_line : Bool) :
    List (List Int) :=
  if single_line then [newlineTokenIds] else []

/-- The `bad_words_ids` argument passed to the decode loop:
`self.badwordsids + additional_bad_words_ids`. -/
def effectiveBadWordsIds (badwordsids : List (List Int))
    (newlineTokenIds : List Int) (single_line : Bool) : List (List Int) :=
  badwordsids ++ additionalBadWordsIds newlineTokenIds single_line

/-- Modelled from the spec: the state of the torch global random source,
which is not part of the sources under verification. -/
def RngState : Type := Int

/-- Modelled from the spec: `torch.manual_seed(seed)` deterministically
seeds the random source — the resulting state is a function of the seed
alone. -/
def manualSeed (seed : Int) : RngState := seed

/-- The deterministic inputs of one `_raw_generate` call: prompt tokens,
generation limits, sampler order and flags. -/
structure GenRequest where
  prompt_tokens : List Int
  max_new : Nat
  sampler_order : List Nat
  single_line : Bool
  batch_count : Nat

/-- Seed handling of `model_backend._raw_generate`: when `seed` is given,
the random source is re-seeded with `torch.manual_seed(seed)` before the
decode loop runs; the decode loop (`self.model.generate`, an external
collaborator) is abstracted as an arbitrary function `modelGenerate` of
the random state and the request — per the spec it is deterministic given
both. -/
def rawGenerate (modelGenerate : RngState → GenRequest → List (List Int))
    (rng : RngState) (seed : Option Int) (req : GenRequest) :
    List (List Int) :=
  let rng2 := match seed with
    | some s => manualSeed s
    | none => rng
  modelGenerate rng2 req

/-! ### `trimincompletesentence` (`utils.py`) -/

/-- Python `str.rfind` on a list of characters: the greatest index holding
`c`, or `-1` when `c` does not occur. -/
def rfind : List Char → Char → Int
  | [], _ => -1
  | a :: t, c =>
      let r := rfind t c
      if r ≥ 0 then r + 1
      else if a = c then 0 else -1

/-- Whether a character is sentence-terminal punctuation for
`trimincompletesentence`. -/
def isTerminal (c : Char) : Bool :=
  c == '.' || c == '!' || c == '?'

/-- The local `lastpunc` of `utils.trimincompletesentence` right after the
search line `max(txt.rfind("."), txt.rfind("!"), txt.rfind("?"))`. -/
def lastpuncRaw (txt : List Char) : Int :=
  max (rfind txt '.') (max (rfind txt '!') (rfind txt '?'))

/-- The local `lastpunc` after the closing-quote adjustment: when `lastpunc`
is not the final index, and the character at `lastpunc + 1` is a double
quote, the cut point moves one character right.  (Indexing `txt[lastpunc+1]`
is embedded with `getElem?`; the index is in bounds whenever the branch is
taken, since `lastpunc ≥ -1`.) -/
def lastpuncAdj (txt : List Char) : Int :=
  if lastpuncRaw txt < (txt.length : Int) - 1 then
    if (txt[(lastpuncRaw txt + 1).toNat]?.getD ' ') = '\x22' then
      lastpuncRaw txt + 1
    else lastpuncRaw txt
  else lastpuncRaw txt

/-- `utils.trimincompletesentence(txt)`: finds the last instance of
sentence-terminal punctuation via `rfind` (with `-1` for "absent"),
extends the cut point over an immediately following double quote, and
truncates (`txt[:lastpunc+1]`) whenever `lastpunc ≥ 0`. -/
def trimincompletesentence (txt : List Char) : List Char :=
  if lastpuncAdj txt ≥ 0 then txt.take (lastpuncAdj txt + 1).toNat else txt

/-- Example warper for witnesses: disabled by configuration
(`value_is_valid()` false) though its transform would alter scores. -/
def exInvalidWarper : Warper :=
  { name := "Temperature", value_is_valid := false, isRepetitionPenalty := false,
    torch := fun s => some (s.map (fun x => x + 1)),
    torchWithIds := fun s _ => some s }

/-- Example warper for counterexamples: valid, returns a non-null score
tensor of a different shape (the empty tensor). -/
def exShapeWarper : Warper :=
  { name := "BadShape", value_is_valid := true, isRepetitionPenalty := false,
    torch := fun _ => some [], torchWithIds := fun s _ => some s }

/-- Example warper for counterexamples: valid, prepends a score entry, so
its output reveals the scores it received. -/
def exConsWarper : Warper :=
  { name := "ConsZero", value_is_valid := true, isRepetitionPenalty := false,
    torch := fun s => some (0 :: s), torchWithIds := fun s _ => some s }

/-- Example warper resolution: id 0 is the shape-changing warper, all other
ids the prepending warper. -/
def exFromId : Nat → Warper :=
  fun sid => if sid = 0 then exShapeWarper else exConsWarper

/-- Example warper for witnesses: valid but returns a null score tensor. -/
def exNullWarper : Warper :=
  { name := "TopK", value_is_valid := true, isRepetitionPenalty := false,
    torch := fun _ => none, torchWithIds := fun s _ => some s }

/-- Example warper for witnesses: a valid repetition-penalty warper (so it
is called through the history-taking branch) that returns a null score
tensor. -/
def exNullRepPenWarper : Warper :=
  { name := "RepetitionPenalty", value_is_valid := true,
    isRepetitionPenalty := true,
    torch := fun s => some s, torchWithIds := fun _ _ => none }

theorem popitem_eq_some {r : KoboldStoryRegister} {p : Int × String}
    {r2 : KoboldStoryRegister} (h : r.popitem = some (p, r2)) :
    r.entries.getLast? = some p ∧
      r2 = { entries := r.entries.dropLast, next_id := r.next_id } := by
  unfold KoboldStoryRegister.popitem at h
  cases hg : r.entries.getLast? with
  | none => rw [hg] at h; exact absurd h (by simp)
  | some q =>
      rw [hg] at h
      simp only [Option.some.injEq, Prod.mk.injEq] at h
      exact ⟨by rw [h.1], h.2.symm⟩

theorem runOps_assigned (ops : List Op) (r : KoboldStoryRegister) :
    (runOps r ops).assigned
      = (List.range (appendCount ops)).map (fun i : Nat => r.next_id + (i : Int)) := by
  induction ops generalizing r with
  | nil => rfl
  | cons op t ih =>
      cases op with
      | appendOp v =>
          show r.next_id :: (runOps (r.append v) t).assigned
              = (List.range (appendCount t + 1)).map (fun i : Nat => r.next_id + (i : Int))
          rw [ih, List.range_succ_eq_map, List.map_cons, List.map_map]
          refine congrArg₂ _ (by simp) (List.map_congr_left fun a _ => ?_)
          show (r.append v).next_id + (a : Int) = r.next_id + ((a + 1 : Nat) : Int)
          show r.next_id + 1 + (a : Int) = r.next_id + ((a + 1 : Nat) : Int)
          push_cast
          ring
      | popOp =>
          show (match r.popitem with
            | none => runOps r t
            | some (p, r2) =>
                let rest := runOps r2 t
                { reg := rest.reg, assigned := rest.assigned,
                  popped := p.1 :: rest.popped } : Trace).assigned
              = (List.range (appendCount t)).map (fun i : Nat => r.next_id + (i : Int))
          cases hp : r.popitem with
          | none => exact ih r
          | some q =>
              obtain ⟨p, r2⟩ := q
              have hnext : r2.next_id = r.next_id := by
                rw [(popitem_eq_some hp).2]
              show (runOps r2 t).assigned = _
              rw [ih r2, hnext]

theorem runOps_next_id (ops : List Op) (r : KoboldStoryRegister) :
    (runOps r ops).reg.next_id = r.next_id + (appendCount ops : Int) := by
  induction ops generalizing r with
  | nil => simp [runOps, appendCount]
  | cons op t ih =>
      cases op with
      | appendOp v =>
          show (runOps (r.append v) t).reg.next_id
              = r.next_id + ((appendCount t + 1 : Nat) : Int)
          rw [ih]
          show r.next_id + 1 + (appendCount t : Int) = _
          push_cast
          ring
      | popOp =>
          show (match r.popitem with
            | none => runOps r t
            | some (p, r2) =>
                let rest := runOps r2 t
                { reg := rest.reg, assigned := rest.assigned,
                  popped := p.1 :: rest.popped } : Trace).reg.next_id
              = r.next_id + (appendCount t : Int)
          cases hp : r.popitem with
          | none => exact ih r
          | some q =>
              obtain ⟨p, r2⟩ := q
              have hnext : r2.next_id = r.next_id := by
                rw [(popitem_eq_some hp).2]
              show (runOps r2 t).reg.next_id = _
              rw [ih r2, hnext]

theorem mem_of_getLast_eq_some {α : Type} {l : List α} {a : α}
    (h : l.getLast? = some a) : a ∈ l := by
  cases l with
  | nil => simp at h
  | cons b t =>
      have hne : b :: t ≠ [] := by simp
      rw [List.getLast?_eq_getLast_of_ne_nil hne] at h
      rw [Option.some.injEq] at h
      rw [← h]
      exact List.getLast_mem hne

theorem odSet_bound {l : List (Int × String)} {k B : Int} {v : String}
    (hl : ∀ p ∈ l, p.1 < B) (hk : k < B) : ∀ p ∈ odSet l k v, p.1 < B := by
  intro p hp
  unfold odSet at hp
  split at hp
  · obtain ⟨q, hq, hpq⟩ := List.mem_map.1 hp
    by_cases hqk : q.1 == k
    · simp only [if_pos hqk] at hpq
      rw [← hpq]
      exact hk
    · simp only [if_neg hqk] at hpq
      rw [← hpq]
      exact hl q hq
  · rcases List.mem_append.1 hp with h | h
    · exact hl p h
    · simp only [List.mem_singleton] at h
      rw [h]
      exact hk

theorem odFold_bound (seq : List (Int × String)) (B : Int) :
    ∀ acc, (∀ p ∈ acc, p.1 < B) → (∀ p ∈ seq, p.1 < B) →
      ∀ p ∈ seq.foldl (fun a q => odSet a q.1 q.2) acc, p.1 < B := by
  induction seq with
  | nil => intro acc hacc _ p hp; exact hacc p hp
  | cons q t ih =>
      intro acc hacc hseq p hp
      exact ih (odSet acc q.1 q.2)
        (odSet_bound hacc (hseq q (by simp)))
        (fun x hx => hseq x (by simp [hx])) p hp

theorem odOfList_bound {seq : List (Int × String)} {B : Int}
    (h : ∀ p ∈ seq, p.1 < B) : ∀ p ∈ odOfList seq, p.1 < B :=
  odFold_bound seq B [] (by simp) h

/-- Master invariant: starting from a register whose entry ids are all below
`next_id`, any append/pop run keeps entry ids below the current `next_id`,
keeps all append-assigned ids and all popped ids below the final `next_id`,
and never decreases `next_id`. -/
theorem runOps_bound (ops : List Op) (r : KoboldStoryRegister)
    (hr : ∀ p ∈ r.entries, p.1 < r.next_id) :
    (∀ p ∈ (runOps r ops).reg.entries, p.1 < (runOps r ops).reg.next_id)
    ∧ (∀ i ∈ (runOps r ops).assigned, i < (runOps r ops).reg.next_id)
    ∧ (∀ i ∈ (runOps r ops).popped, i < (runOps r ops).reg.next_id)
    ∧ r.next_id ≤ (runOps r ops).reg.next_id := by
  induction ops generalizing r with
  | nil =>
      exact ⟨hr, fun i hi => absurd hi (List.not_mem_nil i),
        fun i hi => absurd hi (List.not_mem_nil i), le_refl _⟩
  | cons op t ih =>
      cases op with
      | appendOp v =>
          have hr2 : ∀ p ∈ (r.append v).entries, p.1 < (r.append v).next_id := by
            intro p hp
            exact odSet_bound (B := r.next_id + 1)
              (fun q hq => lt_trans (hr q hq) (by omega)) (by omega) p hp
          obtain ⟨h1, h2, h3, h4⟩ := ih (r.append v) hr2
          have hstep : r.next_id + 1 ≤ (runOps (r.append v) t).reg.next_id := h4
          have hre : (runOps r (Op.appendOp v :: t)).reg.next_id
              = (runOps (r.append v) t).reg.next_id := rfl
          refine ⟨h1, ?_, h3, by omega⟩
          intro i hi
          rcases List.mem_cons.1 hi with hi0 | hi1
          · rw [hi0]; omega
          · exact h2 i hi1
      | popOp =>
          cases hp : r.popitem with
          | none =>
              simp only [runOps, hp]
              exact ih r hr
          | some q =>
              obtain ⟨p, r2⟩ := q
              obtain ⟨hlast, hr2eq⟩ := popitem_eq_some hp
              have hmem : p ∈ r.entries := mem_of_getLast_eq_some hlast
              have hr2 : ∀ x ∈ r2.entries, x.1 < r2.next_id := by
                intro x hx
                rw [hr2eq] at hx ⊢
                exact hr x ((List.dropLast_sublist r.entries).subset hx)
              have hr2nid : r2.next_id = r.next_id := by rw [hr2eq]
              obtain ⟨h1, h2, h3, h4⟩ := ih r2 hr2
              simp only [runOps, hp]
              refine ⟨h1, h2, ?_, by omega⟩
              intro i hi
              rcases List.mem_cons.1 hi with hi0 | hi1
              · rw [hi0]
                calc p.1 < r.next_id := hr p hmem
                  _ = r2.next_id := hr2nid.symm
                  _ ≤ (runOps r2 t).reg.next_id := h4
              · exact h3 i hi1

/-- Running a concatenated operation list: the final register is obtained by
running the second list from the first list's final register, and the
assigned/popped traces concatenate. -/
theorem runOps_append_ops (a b : List Op) (r : KoboldStoryRegister) :
    runOps r (a ++ b)
      = { reg := (runOps (runOps r a).reg b).reg,
          assigned := (runOps r a).assigned ++ (runOps (runOps r a).reg b).assigned,
          popped := (runOps r a).popped ++ (runOps (runOps r a).reg b).popped } := by
  induction a generalizing r with
  | nil => simp [runOps]
  | cons op t ih =>
      cases op with
      | appendOp v => simp [runOps, ih]
      | popOp =>
          cases hp : r.popitem with
          | none => simp only [List.cons_append, runOps, hp]; exact ih r
          | some q =>
              obtain ⟨p, r2⟩ := q
              simp [runOps, hp, ih]

end KoboldAI

/-- Claim C1: over any sequence of `append` calls on a `KoboldStoryRegister`
interleaved with arbitrary `pop` calls, the id assigned to the Nth append is
the initial `next_id` plus N−1 (zero-indexed: entry `n` of the assigned-id
trace equals `next_id + n`), the assigned ids are strictly increasing, and
each `append` increases `next_id` by exactly 1. -/
theorem C1_append_ids (r : KoboldAI.KoboldStoryRegister)
    (ops : List KoboldAI.Op) :
    (∀ n : Nat, ∀ h : n < (KoboldAI.runOps r ops).assigned.length,
        (KoboldAI.runOps r ops).assigned.get ⟨n, h⟩ = r.next_id + (n : Int))
    ∧ List.Pairwise (· < ·) (KoboldAI.runOps r ops).assigned
    ∧ (∀ v, (r.append v).next_id = r.next_id + 1) := by
  refine ⟨?_, ?_, fun v => rfl⟩
  · intro n h
    have h2 := h
    rw [KoboldAI.runOps_assigned] at h2
    rw [List.get_of_eq (KoboldAI.runOps_assigned ops r)]
    rw [List.get_eq_getElem, List.getElem_map]
    simp [List.getElem_range]
  · rw [KoboldAI.runOps_assigned]
    exact List.Pairwise.map _
      (fun a b hab => by exact add_lt_add_left (by exact_mod_cast hab) _)
      (List.pairwise_lt_range _)

/-- Witness for C1 at a concrete run: from a fresh register, the run
append/pop/append assigns id 1 to the second append. -/
theorem C1_append_ids_witness :
    (KoboldAI.runOps KoboldAI.exReg KoboldAI.exOps).assigned.get ⟨1, by decide⟩
      = KoboldAI.exReg.next_id + (1 : Int) :=
  (C1_append_ids KoboldAI.exReg KoboldAI.exOps).1 1 (by decide)

/-- Claim C8: `get_first_key` and `get_last_key` are total (never raise): on
an empty register both return the sentinel `-1`; on a non-empty register
`get_first_key` returns the oldest (first-inserted) live id and
`get_last_key` the newest (last-inserted) live id. -/
theorem C8_first_last_key :
    (∀ i : Int, (KoboldAI.KoboldStoryRegister.mk [] i).get_first_key = -1
        ∧ (KoboldAI.KoboldStoryRegister.mk [] i).get_last_key = -1)
    ∧ (∀ (k : Int) (v : String) (l : List (Int × String)) (i : Int),
        (KoboldAI.KoboldStoryRegister.mk ((k, v) :: l) i).get_first_key = k)
    ∧ (∀ (k : Int) (v : String) (l : List (Int × String)) (i : Int),
        (KoboldAI.KoboldStoryRegister.mk (l ++ [(k, v)]) i).get_last_key = k) := by
  refine ⟨fun i => ⟨rfl, rfl⟩, fun k v l i => rfl, fun k v l i => ?_⟩
  unfold KoboldAI.KoboldStoryRegister.get_last_key
  rw [List.getLast?_concat]

/-- Claim C10: constructing a `KoboldStoryRegister` from a materialized
sequence of n `(id, text)` pairs sets `next_id` to n, the number of pairs,
whatever the ids are. -/
theorem C10_init_next_id (seq : List (Int × String)) :
    (KoboldAI.KoboldStoryRegister.init seq).next_id = (seq.length : Int) := rfl

/-- Counterexample to claim C2 as stated: a register freshly constructed
from the single pair `(5, "x")` has `next_id = 1`, which is smaller than
1 + 5, the bound demanded for the id 5 carried by its entry. -/
theorem C2_counterexample :
    ((5 : Int), "x") ∈ (KoboldAI.KoboldStoryRegister.init [((5 : Int), "x")]).entries
    ∧ (KoboldAI.KoboldStoryRegister.init [((5 : Int), "x")]).next_id < 5 + 1 := by
  constructor
  · show ((5 : Int), "x") ∈ [((5 : Int), "x")]
    exact List.mem_singleton.2 rfl
  · decide

/-- Claim C2 (amended): when the construction sequence's ids are all smaller
than the number of pairs (so that `next_id = length` already dominates
them), every state reached by append/pop calls satisfies
`next_id ≥ 1 + id` for every entry id and for every id ever assigned by an
append; and every `append` increases `next_id` by exactly 1. -/
theorem C2_next_id_invariant (seq : List (Int × String)) (ops : List KoboldAI.Op)
    (hseq : ∀ p ∈ seq, p.1 + 1 ≤ (seq.length : Int)) :
    (∀ p ∈ (KoboldAI.runOps (KoboldAI.KoboldStoryRegister.init seq) ops).reg.entries,
        p.1 + 1 ≤ (KoboldAI.runOps (KoboldAI.KoboldStoryRegister.init seq) ops).reg.next_id)
    ∧ (∀ i ∈ (KoboldAI.runOps (KoboldAI.KoboldStoryRegister.init seq) ops).assigned,
        i + 1 ≤ (KoboldAI.runOps (KoboldAI.KoboldStoryRegister.init seq) ops).reg.next_id)
    ∧ (∀ (v : String) (r0 : KoboldAI.KoboldStoryRegister),
        (r0.append v).next_id = r0.next_id + 1) := by
  have hinit : ∀ p ∈ (KoboldAI.KoboldStoryRegister.init seq).entries,
      p.1 < (KoboldAI.KoboldStoryRegister.init seq).next_id := by
    intro p hp
    have hb : p.1 < (seq.length : Int) :=
      KoboldAI.odOfList_bound (fun q hq => by
        have := hseq q hq
        omega) p hp
    exact hb
  obtain ⟨h1, h2, _, _⟩ :=
    KoboldAI.runOps_bound ops (KoboldAI.KoboldStoryRegister.init seq) hinit
  exact ⟨fun p hp => by have := h1 p hp; omega,
    fun i hi => by have := h2 i hi; omega,
    fun v r0 => rfl⟩

/-- Witness for C2 (amended) at a concrete run: register built from the
single pair `(0, "p")`, then one append. -/
theorem C2_next_id_invariant_witness :
    (0 : Int) + 1
      ≤ (KoboldAI.runOps (KoboldAI.KoboldStoryRegister.init [((0 : Int), "p")])
          [KoboldAI.Op.appendOp "q"]).reg.next_id :=
  (C2_next_id_invariant [((0 : Int), "p")] [KoboldAI.Op.appendOp "q"]
      (by decide)).1 ((0 : Int), "p") (by decide)

/-- Counterexample to claim C7 as stated: on the register constructed from
`[(1,"a"), (2,"b"), (3,"c")]` (so `next_id = 3`), a `pop` removes the entry
with id 3, and the immediately following `append` assigns id 3 again — the
fresh id equals a previously popped id. -/
theorem C7_counterexample :
    (KoboldAI.runOps
        (KoboldAI.KoboldStoryRegister.init [((1 : Int), "a"), (2, "b"), (3, "c")])
        [KoboldAI.Op.popOp, KoboldAI.Op.appendOp "d"]).popped = [3]
    ∧ (KoboldAI.runOps
        (KoboldAI.KoboldStoryRegister.init [((1 : Int), "a"), (2, "b"), (3, "c")])
        [KoboldAI.Op.popOp, KoboldAI.Op.appendOp "d"]).assigned = [3] := by
  constructor <;> rfl

/-- Claim C7 (amended): `pop` on a non-empty register removes and returns
the text of the most-recently-inserted entry and leaves `next_id`
unchanged; `pop` on an empty register fails (the empty-register condition,
a Python `KeyError`, embedded as `none`); and, provided the register was
constructed from pairs whose ids are all smaller than the number of pairs,
a `pop` followed immediately by an `append` assigns a fresh id (the current
`next_id`) that differs from every previously popped id. -/
theorem C7_pop_semantics :
    (∀ (l : List (Int × String)) (k : Int) (v : String) (i : Int),
        (KoboldAI.KoboldStoryRegister.mk (l ++ [(k, v)]) i).pop
          = some (v, KoboldAI.KoboldStoryRegister.mk l i))
    ∧ (∀ i : Int, (KoboldAI.KoboldStoryRegister.mk [] i).pop = none)
    ∧ (∀ (seq : List (Int × String)) (ops : List KoboldAI.Op) (v : String),
        (∀ p ∈ seq, p.1 + 1 ≤ (seq.length : Int)) →
        (KoboldAI.runOps (KoboldAI.KoboldStoryRegister.init seq)
              (ops ++ [KoboldAI.Op.popOp, KoboldAI.Op.appendOp v])).assigned
          = (KoboldAI.runOps (KoboldAI.KoboldStoryRegister.init seq)
              (ops ++ [KoboldAI.Op.popOp])).assigned
            ++ [(KoboldAI.runOps (KoboldAI.KoboldStoryRegister.init seq)
              (ops ++ [KoboldAI.Op.popOp])).reg.next_id]
          ∧ ∀ i ∈ (KoboldAI.runOps (KoboldAI.KoboldStoryRegister.init seq)
              (ops ++ [KoboldAI.Op.popOp, KoboldAI.Op.appendOp v])).popped,
              i ≠ (KoboldAI.runOps (KoboldAI.KoboldStoryRegister.init seq)
                (ops ++ [KoboldAI.Op.popOp])).reg.next_id) := by
  refine ⟨?_, fun i => rfl, ?_⟩
  · intro l k v i
    show Option.map (fun q => (q.1.2, q.2))
        (match (l ++ [(k, v)]).getLast? with
          | none => none
          | some p => some (p,
              ({ entries := (l ++ [(k, v)]).dropLast, next_id := i }
                : KoboldAI.KoboldStoryRegister)))
      = some (v, KoboldAI.KoboldStoryRegister.mk l i)
    rw [List.getLast?_concat, List.dropLast_concat]
    rfl
  · intro seq ops v hseq
    have heq : ops ++ [KoboldAI.Op.popOp, KoboldAI.Op.appendOp v]
        = (ops ++ [KoboldAI.Op.popOp]) ++ [KoboldAI.Op.appendOp v] := by
      simp
    have hsplit := KoboldAI.runOps_append_ops (ops ++ [KoboldAI.Op.popOp])
      [KoboldAI.Op.appendOp v] (KoboldAI.KoboldStoryRegister.init seq)
    have hinit : ∀ p ∈ (KoboldAI.KoboldStoryRegister.init seq).entries,
        p.1 < (KoboldAI.KoboldStoryRegister.init seq).next_id := by
      intro p hp
      have hb : p.1 < (seq.length : Int) :=
        KoboldAI.odOfList_bound (fun q hq => by
          have := hseq q hq
          omega) p hp
      exact hb
    obtain ⟨_, _, h3, _⟩ := KoboldAI.runOps_bound (ops ++ [KoboldAI.Op.popOp])
      (KoboldAI.KoboldStoryRegister.init seq) hinit
    constructor
    · rw [heq, hsplit]
      rfl
    · intro i hi
      rw [heq, hsplit] at hi
      rcases List.mem_append.1 hi with h | h
      · exact ne_of_lt (h3 i h)
      · exact absurd h (List.not_mem_nil i)

/-- Witness for C7 (amended): concrete register from the pair `(0, "p")`,
one pop then one append; the popped id 0 differs from the freshly assigned
id. -/
theorem C7_pop_semantics_witness :
    (0 : Int) ≠ (KoboldAI.runOps (KoboldAI.KoboldStoryRegister.init [((0 : Int), "p")])
        ([] ++ [KoboldAI.Op.popOp])).reg.next_id :=
  (C7_pop_semantics.2.2 [((0 : Int), "p")] [] "q" (by decide)).2 0 (by decide)


theorem applyWarpers_all_invalid (fromId : Nat → KoboldAI.Warper)
    (input_ids : List Int) :
    ∀ (order : List Nat) (scores : List Int),
      (∀ sid ∈ order, (fromId sid).value_is_valid = false) →
      KoboldAI.applyWarpers fromId order scores input_ids = Except.ok scores := by
  intro order
  induction order with
  | nil => intro scores _; rfl
  | cons sid rest ih =>
      intro scores h
      show (if (fromId sid).value_is_valid = false then
          KoboldAI.applyWarpers fromId rest scores input_ids
        else
          match (if (fromId sid).isRepetitionPenalty then
              (fromId sid).torchWithIds scores input_ids
            else
              (fromId sid).torch scores) with
          | none => Except.error ("Scores are None; warper " ++ (fromId sid).name
              ++ " is to blame")
          | some s2 => KoboldAI.applyWarpers fromId rest s2 input_ids)
        = Except.ok scores
      rw [if_pos (h sid (by simp))]
      exact ih scores (fun x hx => h x (by simp [hx]))

theorem applyWarpers_skip (fromId : Nat → KoboldAI.Warper)
    (input_ids : List Int) (sid : Nat)
    (hsid : (fromId sid).value_is_valid = false) :
    ∀ (a b : List Nat) (s : List Int),
      KoboldAI.applyWarpers fromId (a ++ sid :: b) s input_ids
        = KoboldAI.applyWarpers fromId (a ++ b) s input_ids := by
  intro a
  induction a with
  | nil =>
      intro b s
      show (if (fromId sid).value_is_valid = false then
          KoboldAI.applyWarpers fromId b s input_ids
        else
          match (if (fromId sid).isRepetitionPenalty then
              (fromId sid).torchWithIds s input_ids
            else
              (fromId sid).torch s) with
          | none => Except.error ("Scores are None; warper " ++ (fromId sid).name
              ++ " is to blame")
          | some s2 => KoboldAI.applyWarpers fromId b s2 input_ids)
        = KoboldAI.applyWarpers fromId b s input_ids
      rw [if_pos hsid]
  | cons x t ih =>
      intro b s
      show (if (fromId x).value_is_valid = false then
          KoboldAI.applyWarpers fromId (t ++ sid :: b) s input_ids
        else
          match (if (fromId x).isRepetitionPenalty then
              (fromId x).torchWithIds s input_ids
            else
              (fromId x).torch s) with
          | none => Except.error ("Scores are None; warper " ++ (fromId x).name
              ++ " is to blame")
          | some s2 => KoboldAI.applyWarpers fromId (t ++ sid :: b) s2 input_ids)
        = (if (fromId x).value_is_valid = false then
          KoboldAI.applyWarpers fromId (t ++ b) s input_ids
        else
          match (if (fromId x).isRepetitionPenalty then
              (fromId x).torchWithIds s input_ids
            else
              (fromId x).torch s) with
          | none => Except.error ("Scores are None; warper " ++ (fromId x).name
              ++ " is to blame")
          | some s2 => KoboldAI.applyWarpers fromId (t ++ b) s2 input_ids)
      by_cases hx : (fromId x).value_is_valid = false
      · rw [if_pos hx, if_pos hx]
        exact ih b s
      · rw [if_neg hx, if_neg hx]
        cases hm : (if (fromId x).isRepetitionPenalty then
            (fromId x).torchWithIds s input_ids
          else
            (fromId x).torch s) with
        | none => rfl
        | some s2 => exact ih b s2

/-- Claim C3: for any scores and token history, `_apply_warpers` with an
empty `sampler_order`, or one whose configured warpers all have
`value_is_valid()` false, returns the input scores unchanged; and, in
general, a warper whose `value_is_valid()` is false is skipped and does
not alter the scores (removing its id from the order leaves the pipeline
result unchanged). -/
theorem C3_invalid_warpers_identity (fromId : Nat → KoboldAI.Warper)
    (order : List Nat) (scores input_ids : List Int)
    (h : ∀ sid ∈ order, (fromId sid).value_is_valid = false) :
    KoboldAI.applyWarpers fromId order scores input_ids = Except.ok scores
    ∧ KoboldAI.applyWarpers fromId [] scores input_ids = Except.ok scores
    ∧ (∀ (a b : List Nat) (sid : Nat) (s : List Int),
        (fromId sid).value_is_valid = false →
        KoboldAI.applyWarpers fromId (a ++ sid :: b) s input_ids
          = KoboldAI.applyWarpers fromId (a ++ b) s input_ids) :=
  ⟨applyWarpers_all_invalid fromId input_ids order scores h, rfl,
    fun a b sid s hs => applyWarpers_skip fromId input_ids sid hs a b s⟩

/-- Witness for C3: two configured-invalid warpers leave concrete scores
untouched. -/
theorem C3_invalid_warpers_identity_witness :
    KoboldAI.applyWarpers (fun _ => KoboldAI.exInvalidWarper) [0, 1] [5, 7] []
      = Except.ok [5, 7] :=
  (C3_invalid_warpers_identity (fun _ => KoboldAI.exInvalidWarper) [0, 1]
      [5, 7] [] (fun _ _ => rfl)).1

/-- Counterexample to claim C4 as stated: a valid warper that returns a
non-null score tensor of a different shape (here the empty tensor, against
an input of length 3) does not halt the pipeline; its output is propagated
to the next warper (whose prepending transform shows it received the empty
tensor) and the pipeline returns it as a success, identifying nothing. -/
theorem C4_counterexample :
    KoboldAI.applyWarpers KoboldAI.exFromId [0, 1] [1, 2, 3] []
      = Except.ok [0]
    ∧ ([0] : List Int).length ≠ ([1, 2, 3] : List Int).length :=
  ⟨rfl, by decide⟩

/-- Claim C4 (amended): after every stage (each applied warper — through
either call form, the plain `torch(scores)` one or the repetition-penalty
`torch(scores, input_ids=...)` one — and each post-processor), a null
(`None`) score tensor halts the pipeline immediately with a fatal error
naming the offending component, and is never propagated or replaced; but
shape is not checked — a non-null result of any shape is passed on to the
next stage.  The error from the warper stage propagates out of
`KoboldLogitsWarperList.__call__` unchanged. -/
theorem C4_null_halts :
    (∀ (fromId : Nat → KoboldAI.Warper) (sid : Nat) (rest : List Nat)
        (scores input_ids : List Int),
      (fromId sid).value_is_valid = true →
      (if (fromId sid).isRepetitionPenalty then
          (fromId sid).torchWithIds scores input_ids
        else
          (fromId sid).torch scores) = none →
      KoboldAI.applyWarpers fromId (sid :: rest) scores input_ids
        = Except.error ("Scores are None; warper " ++ (fromId sid).name
            ++ " is to blame"))
    ∧ (∀ (p : KoboldAI.LogitsProcessor) (rest : List KoboldAI.LogitsProcessor)
        (input_ids scores : List Int),
      p.process scores input_ids = none →
      KoboldAI.applyProcessors (p :: rest) input_ids scores
        = Except.error ("Scores are None; processor " ++ p.name
            ++ " is to blame"))
    ∧ (∀ (fromId : Nat → KoboldAI.Warper) (sid : Nat) (rest : List Nat)
        (scores s2 input_ids : List Int),
      (fromId sid).value_is_valid = true →
      (if (fromId sid).isRepetitionPenalty then
          (fromId sid).torchWithIds scores input_ids
        else
          (fromId sid).torch scores) = some s2 →
      KoboldAI.applyWarpers fromId (sid :: rest) scores input_ids
        = KoboldAI.applyWarpers fromId rest s2 input_ids)
    ∧ (∀ (fromId : Nat → KoboldAI.Warper)
        (processors : List KoboldAI.LogitsProcessor) (order : List Nat)
        (input_ids scores : List Int) (e : String),
      KoboldAI.applyWarpers fromId order scores input_ids = Except.error e →
      KoboldAI.koboldLogitsWarperList fromId processors order input_ids scores
        = Except.error e) := by
  refine ⟨?_, ?_, ?_, ?_⟩
  · intro fromId sid rest scores input_ids hv hnone
    show (if (fromId sid).value_is_valid = false then
        KoboldAI.applyWarpers fromId rest scores input_ids
      else
        match (if (fromId sid).isRepetitionPenalty then
            (fromId sid).torchWithIds scores input_ids
          else
            (fromId sid).torch scores) with
        | none => Except.error ("Scores are None; warper " ++ (fromId sid).name
            ++ " is to blame")
        | some s2 => KoboldAI.applyWarpers fromId rest s2 input_ids)
      = Except.error ("Scores are None; warper " ++ (fromId sid).name
          ++ " is to blame")
    rw [if_neg (by rw [hv]; exact fun hcon => Bool.noConfusion hcon), hnone]
  · intro p rest input_ids scores hnone
    show (match p.process scores input_ids with
      | none => Except.error ("Scores are None; processor " ++ p.name
          ++ " is to blame")
      | some s2 => KoboldAI.applyProcessors rest input_ids s2)
      = Except.error ("Scores are None; processor " ++ p.name
          ++ " is to blame")
    rw [hnone]
  · intro fromId sid rest scores s2 input_ids hv hsome
    show (if (fromId sid).value_is_valid = false then
        KoboldAI.applyWarpers fromId rest scores input_ids
      else
        match (if (fromId sid).isRepetitionPenalty then
            (fromId sid).torchWithIds scores input_ids
          else
            (fromId sid).torch scores) with
        | none => Except.error ("Scores are None; warper " ++ (fromId sid).name
            ++ " is to blame")
        | some s3 => KoboldAI.applyWarpers fromId rest s3 input_ids)
      = KoboldAI.applyWarpers fromId rest s2 input_ids
    rw [if_neg (by rw [hv]; exact fun hcon => Bool.noConfusion hcon), hsome]
  · intro fromId processors order input_ids scores e herr
    show (match KoboldAI.applyWarpers fromId order scores input_ids with
      | Except.error e2 => Except.error e2
      | Except.ok s1 => KoboldAI.applyProcessors processors input_ids s1)
      = Except.error e
    rw [herr]

/-- Witness for C4 (amended): a valid plain warper and a valid
repetition-penalty warper, each returning a null tensor, halt the pipeline
with the assertion message naming them. -/
theorem C4_null_halts_witness :
    KoboldAI.applyWarpers (fun _ => KoboldAI.exNullWarper) [0] [1, 2] []
      = Except.error "Scores are None; warper TopK is to blame"
    ∧ KoboldAI.applyWarpers (fun _ => KoboldAI.exNullRepPenWarper) [0]
        [1, 2] [9]
      = Except.error "Scores are None; warper RepetitionPenalty is to blame" :=
  ⟨C4_null_halts.1 (fun _ => KoboldAI.exNullWarper) 0 [] [1, 2] [] rfl rfl,
    C4_null_halts.1 (fun _ => KoboldAI.exNullRepPenWarper) 0 [] [1, 2] [9]
      rfl rfl⟩

/-- Claim C5: the effective bad-word-id set passed to the decode loop
equals the configured bad-word ids when `single_line` is false, and the
configured bad-word ids with the newline token ids appended when
`single_line` is true; in particular, the newline token ids are always in
the effective set under `single_line = true`, whatever the base
configuration. -/
theorem C5_bad_words (badwordsids : List (List Int))
    (newlineTokenIds : List Int) :
    KoboldAI.effectiveBadWordsIds badwordsids newlineTokenIds false
      = badwordsids
    ∧ KoboldAI.effectiveBadWordsIds badwordsids newlineTokenIds true
      = badwordsids ++ [newlineTokenIds]
    ∧ newlineTokenIds ∈
        KoboldAI.effectiveBadWordsIds badwordsids newlineTokenIds true := by
  refine ⟨?_, rfl, ?_⟩
  · show badwordsids ++ [] = badwordsids
    exact List.append_nil badwordsids
  · exact List.mem_append.2 (Or.inr (List.mem_singleton.2 rfl))

/-- Claim C6: two `_raw_generate` calls with the same non-`None` seed, the
same request (prompt tokens, sampler order, settings) and the same decode
loop produce identical outputs even from different initial random-source
states, because the random source is deterministically re-seeded before
sampling. -/
theorem C6_seed_determinism
    (modelGenerate : KoboldAI.RngState → KoboldAI.GenRequest → List (List Int))
    (rng1 rng2 : KoboldAI.RngState) (s : Int) (req : KoboldAI.GenRequest) :
    KoboldAI.rawGenerate modelGenerate rng1 (some s) req
      = KoboldAI.rawGenerate modelGenerate rng2 (some s) req := rfl


namespace KoboldAI

theorem mem_of_getElemQ {α : Type} {l : List α} {i : Nat} {a : α}
    (h : l[i]? = some a) : a ∈ l := by
  rw [List.getElem?_eq_some] at h
  obtain ⟨hi, rfl⟩ := h
  exact List.getElem_mem hi

theorem rfind_spec (c : Char) : ∀ txt : List Char,
    (rfind txt c = -1 ∧ c ∉ txt)
    ∨ (0 ≤ rfind txt c ∧ rfind txt c < (txt.length : Int)
        ∧ txt[(rfind txt c).toNat]? = some c
        ∧ ∀ j : Nat, rfind txt c < (j : Int) → txt[j]? ≠ some c) := by
  intro txt
  induction txt with
  | nil => exact Or.inl ⟨rfl, by simp⟩
  | cons a t ih =>
      have hstep : rfind (a :: t) c
          = (if rfind t c ≥ 0 then rfind t c + 1
             else if a = c then 0 else -1) := rfl
      rcases ih with ⟨h1, h2⟩ | ⟨h0, hlen, hget, hmax⟩
      · by_cases hac : a = c
        · right
          have hr : rfind (a :: t) c = 0 := by
            rw [hstep, h1]
            norm_num [hac]
          refine ⟨by rw [hr], by rw [hr]; simp, ?_, ?_⟩
          · rw [hr]
            show (a :: t)[(0 : Nat)]? = some c
            rw [List.getElem?_cons_zero, hac]
          · intro j hj
            rw [hr] at hj
            obtain ⟨j2, rfl⟩ : ∃ j2, j = j2 + 1 := ⟨j - 1, by omega⟩
            rw [List.getElem?_cons_succ]
            intro hcon
            exact h2 (mem_of_getElemQ hcon)
        · left
          refine ⟨by rw [hstep, h1]; norm_num [hac], ?_⟩
          intro hmem
          rcases List.mem_cons.1 hmem with hcon | hcon
          · exact hac hcon.symm
          · exact h2 hcon
      · right
        have hr : rfind (a :: t) c = rfind t c + 1 := by
          rw [hstep, if_pos h0]
        refine ⟨by omega, ?_, ?_, ?_⟩
        · rw [hr]
          simp only [List.length_cons]
          push_cast
          omega
        · rw [hr]
          have htn : (rfind t c + 1).toNat = (rfind t c).toNat + 1 := by omega
          rw [htn, List.getElem?_cons_succ]
          exact hget
        · intro j hj
          rw [hr] at hj
          obtain ⟨j2, rfl⟩ : ∃ j2, j = j2 + 1 := ⟨j - 1, by omega⟩
          rw [List.getElem?_cons_succ]
          refine hmax j2 ?_
          push_cast at hj
          omega

theorem rfind_eq_neg_one {txt : List Char} {c : Char} (h : c ∉ txt) :
    rfind txt c = -1 := by
  rcases rfind_spec c txt with ⟨h1, _⟩ | ⟨_, _, hget, _⟩
  · exact h1
  · exact absurd (mem_of_getElemQ hget) h

theorem rfind_ge_of_getElem {txt : List Char} {c : Char} {p : Nat}
    (h : txt[p]? = some c) : (p : Int) ≤ rfind txt c := by
  rcases rfind_spec c txt with ⟨_, h2⟩ | ⟨_, _, _, hmax⟩
  · exact absurd (mem_of_getElemQ h) h2
  · by_contra hlt
    exact hmax p (by omega) h

theorem lastpuncRaw_eq (txt : List Char) (p : Nat) (c : Char)
    (hp : txt[p]? = some c) (hc : isTerminal c = true)
    (hdrop : ∀ d ∈ txt.drop (p + 1), isTerminal d = false) :
    lastpuncRaw txt = (p : Int) := by
  have hc2 : (c = '.' ∨ c = '!') ∨ c = '?' := by
    simpa [isTerminal] using hc
  have hge : (p : Int) ≤ lastpuncRaw txt := by
    have hr := rfind_ge_of_getElem hp
    unfold lastpuncRaw
    rcases hc2 with (rfl | rfl) | rfl
    · exact le_trans hr (le_max_left _ _)
    · exact le_trans hr (le_trans (le_max_left _ _) (le_max_right _ _))
    · exact le_trans hr (le_trans (le_max_right _ _) (le_max_right _ _))
  have hle : ∀ d : Char, isTerminal d = true → rfind txt d ≤ (p : Int) := by
    intro d hd
    rcases rfind_spec d txt with ⟨h1, _⟩ | ⟨h0, hlen, hget, _⟩
    · rw [h1]; omega
    · by_contra hgt
      push_neg at hgt
      have hidx : (rfind txt d).toNat = (p + 1) + ((rfind txt d).toNat - (p + 1)) := by
        omega
      have hg2 : txt[(p + 1) + ((rfind txt d).toNat - (p + 1))]? = some d := by
        rw [← hidx]
        exact hget
      rw [← List.getElem?_drop] at hg2
      have hdmem : d ∈ txt.drop (p + 1) := mem_of_getElemQ hg2
      rw [hdrop d hdmem] at hd
      exact Bool.noConfusion hd
  exact le_antisymm
    (max_le (hle '.' (by decide))
      (max_le (hle '!' (by decide)) (hle '?' (by decide)))) hge

theorem lastpuncRaw_neg (txt : List Char)
    (h : ∀ c ∈ txt, isTerminal c = false) : lastpuncRaw txt = -1 := by
  have h1 : rfind txt '.' = -1 :=
    rfind_eq_neg_one (fun hm => absurd (h _ hm) (by decide))
  have h2 : rfind txt '!' = -1 :=
    rfind_eq_neg_one (fun hm => absurd (h _ hm) (by decide))
  have h3 : rfind txt '?' = -1 :=
    rfind_eq_neg_one (fun hm => absurd (h _ hm) (by decide))
  unfold lastpuncRaw
  rw [h1, h2, h3]
  decide

end KoboldAI

/-- Counterexample to claim C9 as stated: the text `"hello` contains no
sentence-terminal punctuation yet is not returned unchanged: `rfind`
returns the `-1` sentinel, the closing-quote check then inspects the
character at index `-1 + 1 = 0`, finds a double quote, and the text is
truncated to just that quote. -/
theorem C9_counterexample :
    KoboldAI.trimincompletesentence ['\x22', 'h', 'e', 'l', 'l', 'o']
      = ['\x22']
    ∧ KoboldAI.trimincompletesentence ['\x22', 'h', 'e', 'l', 'l', 'o']
      ≠ ['\x22', 'h', 'e', 'l', 'l', 'o']
    ∧ (∀ c ∈ (['\x22', 'h', 'e', 'l', 'l', 'o'] : List Char),
        KoboldAI.isTerminal c = false) :=
  ⟨rfl, by decide, by decide⟩

/-- Claim C9 (amended): `trimincompletesentence` truncates just after the
last sentence-terminal punctuation (`.`, `!` or `?`), extending the cut by
one character when the character immediately following that punctuation is
a double quote; a text with no sentence-terminal punctuation is returned
unchanged, except that a text whose first character is a double quote is
truncated to that single quote character (the `-1` rfind sentinel plus one
indexes position 0). -/
theorem C9_trim_characterization (txt : List Char) :
    ((∀ c ∈ txt, KoboldAI.isTerminal c = false) → txt.head? = some '\x22' →
        KoboldAI.trimincompletesentence txt = ['\x22'])
    ∧ ((∀ c ∈ txt, KoboldAI.isTerminal c = false) → txt.head? ≠ some '\x22' →
        KoboldAI.trimincompletesentence txt = txt)
    ∧ (∀ (p : Nat) (c : Char), txt[p]? = some c → KoboldAI.isTerminal c = true →
        (∀ d ∈ txt.drop (p + 1), KoboldAI.isTerminal d = false) →
        KoboldAI.trimincompletesentence txt
          = if txt[p + 1]? = some '\x22' then txt.take (p + 2)
            else txt.take (p + 1)) := by
  refine ⟨?_, ?_, ?_⟩
  · intro hnp hhead
    cases txt with
    | nil => exact absurd hhead (by simp)
    | cons a t =>
        have ha : a = '\x22' := by
          rw [List.head?_cons, Option.some.injEq] at hhead
          exact hhead
        have hraw := KoboldAI.lastpuncRaw_neg (a :: t) hnp
        have hadj : KoboldAI.lastpuncAdj (a :: t) = 0 := by
          unfold KoboldAI.lastpuncAdj
          rw [hraw]
          rw [if_pos (by simp only [List.length_cons]; push_cast; omega)]
          rw [show ((-1 : Int) + 1).toNat = 0 from rfl, List.getElem?_cons_zero]
          rw [Option.getD_some, if_pos ha]
          decide
        unfold KoboldAI.trimincompletesentence
        rw [hadj, if_pos (by omega)]
        rw [ha]
        rfl
  · intro hnp hhead
    cases txt with
    | nil => rfl
    | cons a t =>
        have ha : a ≠ '\x22' := by
          intro hcon
          exact hhead (by rw [List.head?_cons, hcon])
        have hraw := KoboldAI.lastpuncRaw_neg (a :: t) hnp
        have hadj : KoboldAI.lastpuncAdj (a :: t) = -1 := by
          unfold KoboldAI.lastpuncAdj
          rw [hraw]
          rw [if_pos (by simp only [List.length_cons]; push_cast; omega)]
          rw [show ((-1 : Int) + 1).toNat = 0 from rfl, List.getElem?_cons_zero]
          rw [Option.getD_some, if_neg ha]
        unfold KoboldAI.trimincompletesentence
        rw [hadj, if_neg (by omega)]
  · intro p c hp hc hdrop
    have hraw := KoboldAI.lastpuncRaw_eq txt p c hp hc hdrop
    have hplen : p < txt.length := (List.getElem?_eq_some.1 hp).1
    by_cases hlast : (p : Int) < (txt.length : Int) - 1
    · have hp1len : p + 1 < txt.length := by omega
      have hch : txt[p + 1]? = some txt[p + 1] :=
        List.getElem?_eq_getElem hp1len
      have hadj : KoboldAI.lastpuncAdj txt
          = (if txt[p + 1] = '\x22' then (p : Int) + 1 else (p : Int)) := by
        unfold KoboldAI.lastpuncAdj
        rw [hraw, if_pos hlast]
        rw [show ((p : Int) + 1).toNat = p + 1 by omega]
        rw [hch, Option.getD_some]
      by_cases hq : txt[p + 1] = '\x22'
      · unfold KoboldAI.trimincompletesentence
        rw [hadj, if_pos hq, if_pos (by omega)]
        rw [show ((p : Int) + 1 + 1).toNat = p + 2 by omega]
        rw [if_pos (by rw [hch, hq])]
      · unfold KoboldAI.trimincompletesentence
        rw [hadj, if_neg hq, if_pos (by omega)]
        rw [show ((p : Int) + 1).toNat = p + 1 by omega]
        rw [if_neg (by
          rw [hch]
          intro hcon
          rw [Option.some.injEq] at hcon
          exact hq hcon)]
    · have hp1 : txt.length ≤ p + 1 := by omega
      have hnone : txt[p + 1]? = none := List.getElem?_eq_none hp1
      have hadj : KoboldAI.lastpuncAdj txt = (p : Int) := by
        unfold KoboldAI.lastpuncAdj
        rw [hraw, if_neg hlast]
      unfold KoboldAI.trimincompletesentence
      rw [hadj, if_pos (by omega)]
      rw [show ((p : Int) + 1).toNat = p + 1 by omega]
      rw [if_neg (by rw [hnone]; exact fun hcon => Option.noConfusion hcon)]

/-- Witness for C9 (amended), punctuation clause, at the concrete text
`a."b`: the last punctuation is at index 1 and is followed by a double
quote, so the result keeps the first three characters. -/
theorem C9_trim_characterization_witness :
    KoboldAI.trimincompletesentence ['a', '.', '\x22', 'b']
      = if (['a', '.', '\x22', 'b'] : List Char)[1 + 1]? = some '\x22'
        then (['a', '.', '\x22', 'b'] : List Char).take (1 + 2)
        else (['a', '.', '\x22', 'b'] : List Char).take (1 + 1) :=
  (C9_trim_characterization ['a', '.', '\x22', 'b']).2.2 1 '.' rfl (by decide)
    (by decide)
